import Mathlib

/-!
Verification of the pacing / session layer of `rustednes-cosmic`
(`src/emulator.rs`, `src/video.rs`), shallowly embedded in Lean.

Modelling choices:
* The external machine core (`rustednes_core::nes::Nes`) is abstracted as a
  `CoreSem` record: `new` builds a power-on core from a cartridge, `reset`
  restores power-on state, and `step` executes one instruction, possibly
  rewriting the pixel buffer through the video sink, and reports the cycles
  it consumed.  The audio sink is opaque to every property below and is
  elided.
* The clock (`time_source.time_ns()`) is passed explicitly: each operation
  takes the `now` reading it would obtain during the call.
* `u64` arithmetic is modelled with `Nat`; the subtractions in the source
  are only ever applied to monotone clock readings, which the theorems make
  explicit as hypotheses.
* The unbounded `while` loop in `tick` is given a fuel parameter and returns
  `none` on fuel exhaustion; theorems supply enough fuel via the hypothesis
  that every core step consumes at least one cycle.
-/

/-- `SCREEN_WIDTH` from `rustednes_core::ppu` (NES PPU output width). -/
def SCREEN_WIDTH : Nat := 256

/-- `SCREEN_HEIGHT` from `rustednes_core::ppu` (NES PPU output height). -/
def SCREEN_HEIGHT : Nat := 240

/-- `CPU_FREQUENCY` from `rustednes_core::cpu`: the nominal NTSC NES CPU
frequency in Hz. -/
def CPU_FREQUENCY : Nat := 1789773

/-- `pub const CPU_CYCLE_TIME_NS: u64 = (1e9_f64 / CPU_FREQUENCY as f64) as u64 + 1;`
(`src/emulator.rs:22`).  The `f64` quotient `1e9 / 1789773 = 558.7306…` is far
from an integer boundary, so rounding it to nearest and truncating to `u64`
coincides with exact natural floor division, which is how the constant is
rendered here. -/
def CPU_CYCLE_TIME_NS : Nat := 10 ^ 9 / CPU_FREQUENCY + 1

/-- Abstract interface of the external machine core (`rustednes_core`):
`new` constructs a power-on core from a cartridge image, `reset` restores
power-on state, `step` executes one instruction against the pixel buffer
(video sink) and returns the stepped core, the cycles consumed, and the
possibly rewritten pixel buffer. -/
structure CoreSem (κ σ : Type) where
  new : κ → σ
  reset : σ → σ
  step : σ → List Nat → σ × Nat × List Nat

/-- The session state of `Emulator` (`src/emulator.rs:24`), keeping the
fields the pacing layer reads or writes.  The audio driver, time source and
keymap are elided: the driver and keymap are untouched by the operations
modelled here and the time source is passed explicitly as `now`. -/
structure Emulator (σ : Type) where
  nes : σ
  start_time_ns : Nat
  paused_time_ns : Option Nat
  emulated_cycles : Nat
  emulated_instructions : Nat
  pixels : List Nat
  rom_path : String

namespace Emulator

/-- `Emulator::new` (`src/emulator.rs:40`): power-on core, fresh epoch,
not paused, zero counters, zero-filled pixel buffer. -/
def new (sem : CoreSem κ σ) (rom : κ) (rom_path : String) (now : Nat) :
    Emulator σ where
  nes := sem.new rom
  start_time_ns := now
  paused_time_ns := none
  emulated_cycles := 0
  emulated_instructions := 0
  pixels := List.replicate (SCREEN_WIDTH * SCREEN_HEIGHT * 4) 0
  rom_path := rom_path

/-- The `while self.emulated_cycles < target_cycles` loop of `Emulator::tick`
(`src/emulator.rs:73`), with fuel; `none` models non-termination within the
given fuel. -/
def runSteps (sem : CoreSem κ σ) (target : Nat) :
    Nat → Emulator σ → Option (Emulator σ)
  | fuel, s =>
    if s.emulated_cycles < target then
      match fuel with
      | 0 => none
      | fuel + 1 =>
        let r := sem.step s.nes s.pixels
        runSteps sem target fuel
          { s with
            nes := r.1
            emulated_cycles := s.emulated_cycles + r.2.1
            emulated_instructions := s.emulated_instructions + 1
            pixels := r.2.2 }
    else
      some s

/-- `Emulator::tick` (`src/emulator.rs:61`): early return when paused,
otherwise compute `target_cycles = (now - start_time_ns) / CPU_CYCLE_TIME_NS`
and run the stepping loop. -/
def tick (sem : CoreSem κ σ) (fuel now : Nat) (s : Emulator σ) :
    Option (Emulator σ) :=
  match s.paused_time_ns with
  | some _ => some s
  | none =>
      runSteps sem ((now - s.start_time_ns) / CPU_CYCLE_TIME_NS) fuel s

/-- A sequence of `tick` calls at the given clock readings. -/
def tickSeq (sem : CoreSem κ σ) (fuel : Nat) :
    List Nat → Emulator σ → Option (Emulator σ)
  | [], s => some s
  | t :: ts, s =>
    match tick sem fuel t s with
    | none => none
    | some s1 => tickSeq sem fuel ts s1

/-- `Emulator::pause_emulation` (`src/emulator.rs:81`): unconditionally
records the current clock reading as the paused timestamp. -/
def pause_emulation (now : Nat) (s : Emulator σ) : Emulator σ :=
  { s with paused_time_ns := some now }

/-- `Emulator::resume_emulation` (`src/emulator.rs:85`): when paused, shift
the epoch forward by the paused duration and clear the paused timestamp. -/
def resume_emulation (now : Nat) (s : Emulator σ) : Emulator σ :=
  match s.paused_time_ns with
  | some paused_time_ns =>
      { s with
        start_time_ns := s.start_time_ns + (now - paused_time_ns)
        paused_time_ns := none }
  | none => s

/-- `Emulator::reset` (`src/emulator.rs:93`): reset the core, re-anchor the
epoch, zero both counters.  Note the paused timestamp is not touched. -/
def reset (sem : CoreSem κ σ) (now : Nat) (s : Emulator σ) : Emulator σ :=
  { s with
    nes := sem.reset s.nes
    start_time_ns := now
    emulated_cycles := 0
    emulated_instructions := 0 }

/-- `Emulator::load_rom` (`src/emulator.rs:100`): `reset` first (on the old
core), then replace the core wholesale and record the new path. -/
def load_rom (sem : CoreSem κ σ) (rom : κ) (rom_path : String) (now : Nat)
    (s : Emulator σ) : Emulator σ :=
  let s1 := s.reset sem now
  { s1 with nes := sem.new rom, rom_path := rom_path }

/-- Modelled from the spec's words for `load(new_image)` (§4.3): "replaces
the machine core instance wholesale with one constructed from `new_image`,
then performs the equivalent of `reset()`" — replacement first, then the
program's `reset`. -/
def load_rom_spec (sem : CoreSem κ σ) (rom : κ) (rom_path : String)
    (now : Nat) (s : Emulator σ) : Emulator σ :=
  Emulator.reset sem now { s with nes := sem.new rom, rom_path := rom_path }

end Emulator

/-- A write `l[i] = v` with the bounds check of Rust slice indexing:
`none` models the out-of-bounds panic. -/
def setChecked (l : List Nat) (i v : Nat) : Option (List Nat) :=
  if i < l.length then some (l.set i v) else none

/-- The body of the `for (i, palette_index) in frame_buffer.iter().enumerate()`
loop of `VideoFrameSink::write_frame` (`src/video.rs:21`), starting at pixel
position `i`.  The palette (`XRGB8888_PALETTE`, a fixed table of `u32` XRGB
values in `rustednes_core::sink`) is abstracted as a function; `>> 16`,
`>> 8` and the `as u8` casts on a `u32` are division and `% 2^8` on `Nat`. -/
def writePixels (palette : Nat → Nat) (pixels : List Nat) :
    List Nat → Nat → Option (List Nat)
  | [], _ => some pixels
  | palette_index :: rest, i => do
    let pixel := palette palette_index
    let offset := i * 4
    let p1 ← setChecked pixels offset (pixel / 2 ^ 16 % 2 ^ 8)
    let p2 ← setChecked p1 (offset + 1) (pixel / 2 ^ 8 % 2 ^ 8)
    let p3 ← setChecked p2 (offset + 2) (pixel % 2 ^ 8)
    let p4 ← setChecked p3 (offset + 3) 0x77
    writePixels palette p4 rest (i + 1)

/-- `VideoFrameSink::write_frame` (`src/video.rs:20`). -/
def write_frame (palette : Nat → Nat) (pixels frame_buffer : List Nat) :
    Option (List Nat) :=
  writePixels palette pixels frame_buffer 0

/-- A concrete core semantics used to instantiate witnesses: the core state
is a step counter, every step costs 2 cycles and leaves the pixels alone. -/
def natSem : CoreSem Nat Nat where
  new _ := 0
  reset _ := 0
  step s px := (s + 1, 2, px)

/-- A concrete running session for witnesses: fresh at epoch 0. -/
def demoRunning : Emulator Nat := Emulator.new natSem 7 "demo.nes" 0

/-- A concrete paused session for witnesses: `demoRunning` paused at t=10. -/
def demoPaused : Emulator Nat := Emulator.pause_emulation 10 demoRunning

/-- C9: `CPU_CYCLE_TIME_NS` is the integer quotient of `1e9` by
`CPU_FREQUENCY` biased up by one, and since the frequency does not divide
`1e9` this equals the ceiling `⌈1e9 / CPU_FREQUENCY⌉`: the smallest period
whose multiples reach `1e9`. -/
theorem cpu_cycle_time_is_ceil :
    CPU_CYCLE_TIME_NS = (10 ^ 9 + CPU_FREQUENCY - 1) / CPU_FREQUENCY ∧
    10 ^ 9 ≤ CPU_CYCLE_TIME_NS * CPU_FREQUENCY ∧
    (CPU_CYCLE_TIME_NS - 1) * CPU_FREQUENCY < 10 ^ 9 := by
  refine ⟨?_, ?_, ?_⟩ <;> decide

/-- C6: immediately after `reset`, both counters are zero and the epoch is
the clock reading taken during the call, for every prior state. -/
theorem reset_fresh_epoch (sem : CoreSem κ σ) (now : Nat) (s : Emulator σ) :
    (s.reset sem now).emulated_cycles = 0 ∧
    (s.reset sem now).emulated_instructions = 0 ∧
    (s.reset sem now).start_time_ns = now :=
  ⟨rfl, rfl, rfl⟩

/-- C5: when paused (`paused_time_ns = some t`), `tick` is a no-op: it
returns the state unchanged in every field, stepping nothing. -/
theorem tick_paused_noop (sem : CoreSem κ σ) (fuel now t : Nat)
    (s : Emulator σ) (h : s.paused_time_ns = some t) :
    Emulator.tick sem fuel now s = some s := by
  unfold Emulator.tick
  rw [h]

theorem tick_paused_noop_witness :
    demoPaused.paused_time_ns = some 10 ∧
    Emulator.tick natSem 5 99999 demoPaused = some demoPaused :=
  ⟨rfl, tick_paused_noop natSem 5 99999 10 demoPaused rfl⟩

/-- C1 counterexample: from a paused session, `reset` does not clear the
paused timestamp (it stays `some 10`, not `none`), and a subsequent `tick`
at a much later clock reading is still the paused no-op rather than
recomputing a target and stepping the core. -/
theorem reset_paused_counterexample :
    (Emulator.reset natSem 50 demoPaused).paused_time_ns = some 10 ∧
    Emulator.tick natSem 100 100000 (Emulator.reset natSem 50 demoPaused) =
      some (Emulator.reset natSem 50 demoPaused) :=
  ⟨rfl, rfl⟩

/-- C1 (amended): `reset` zeroes both counters and re-anchors the epoch but
leaves `paused_time_ns` exactly as it was: after `reset` from `Running` the
session is still `Running`, while from `Paused` it remains `Paused` (and
`tick` remains the paused no-op until `resume_emulation`). -/
theorem reset_preserves_pause_state (sem : CoreSem κ σ) (now : Nat)
    (s : Emulator σ) :
    (s.reset sem now).paused_time_ns = s.paused_time_ns ∧
    (s.reset sem now).emulated_cycles = 0 ∧
    (s.reset sem now).emulated_instructions = 0 ∧
    (s.reset sem now).start_time_ns = now :=
  ⟨rfl, rfl, rfl, rfl⟩

/-- C2 counterexample: calling `pause_emulation` again while already paused
is not a no-op: on `demoPaused` (paused at t=10) it overwrites the paused
timestamp to 20; consequently pause at 0, pause again at 100, resume at
1100 shifts the epoch by 1000, while pause at 0, resume at 1100 shifts it
by 1100 — not the same amount. -/
theorem pause_idempotent_counterexample :
    demoPaused.paused_time_ns = some 10 ∧
    (Emulator.pause_emulation 20 demoPaused).paused_time_ns = some 20 ∧
    (Emulator.resume_emulation 1100 (Emulator.pause_emulation 100
        (Emulator.pause_emulation 0 demoRunning))).start_time_ns = 1000 ∧
    (Emulator.resume_emulation 1100
        (Emulator.pause_emulation 0 demoRunning)).start_time_ns = 1100 :=
  ⟨rfl, rfl, rfl, rfl⟩

/-- C2 (amended): `pause_emulation` while already paused overwrites
`paused_timestamp` with the current clock reading and changes nothing else
(`pause t2 ∘ pause t1 = pause t2`), so pause at `t1`, pause again at `t2`,
resume at `t3 ≥ t2` shifts the epoch by exactly `t3 - t2`, not `t3 - t1`. -/
theorem pause_while_paused_overwrites (s : Emulator σ) (t1 t2 t3 : Nat)
    (h : t2 ≤ t3) :
    Emulator.pause_emulation t2 (Emulator.pause_emulation t1 s) =
      Emulator.pause_emulation t2 s ∧
    (Emulator.resume_emulation t3 (Emulator.pause_emulation t2
        (Emulator.pause_emulation t1 s))).start_time_ns =
      s.start_time_ns + (t3 - t2) :=
  ⟨rfl, rfl⟩

theorem pause_while_paused_overwrites_witness :
    (100 : Nat) ≤ 1100 ∧
    (Emulator.pause_emulation 100 (Emulator.pause_emulation 0 demoRunning) =
      Emulator.pause_emulation 100 demoRunning ∧
    (Emulator.resume_emulation 1100 (Emulator.pause_emulation 100
        (Emulator.pause_emulation 0 demoRunning))).start_time_ns =
      demoRunning.start_time_ns + (1100 - 100)) :=
  ⟨by decide, pause_while_paused_overwrites demoRunning 0 100 1100 (by decide)⟩

/-- C3: from a `Running` state, `pause_emulation` at `t1` followed by
`resume_emulation` at `t2 ≥ t1` adds exactly `t2 - t1` to `start_time_ns`
and returns to `Running` (`paused_time_ns = none`); for every later clock
reading `now`, the effective elapsed time — and hence the `target_cycles` a
subsequent `tick` computes — equals the one a pause-free run read at the
clock shifted back by the paused duration would see (with epoch 0, pause at
100, resume at 1100, a `tick` at 1200 sees 200ns of effective elapsed
time). -/
theorem pause_resume_epoch_shift (s : Emulator σ) (t1 t2 : Nat)
    (hrun : s.paused_time_ns = none) (h12 : t1 ≤ t2) :
    (Emulator.resume_emulation t2
        (Emulator.pause_emulation t1 s)).start_time_ns =
      s.start_time_ns + (t2 - t1) ∧
    (Emulator.resume_emulation t2
        (Emulator.pause_emulation t1 s)).paused_time_ns = none ∧
    ∀ now : Nat,
      now - (Emulator.resume_emulation t2
          (Emulator.pause_emulation t1 s)).start_time_ns =
        (now - (t2 - t1)) - s.start_time_ns ∧
      (now - (Emulator.resume_emulation t2
          (Emulator.pause_emulation t1 s)).start_time_ns) /
          CPU_CYCLE_TIME_NS =
        ((now - (t2 - t1)) - s.start_time_ns) / CPU_CYCLE_TIME_NS := by
  refine ⟨rfl, rfl, fun now => ?_⟩
  have helapsed :
      now - (Emulator.resume_emulation t2
          (Emulator.pause_emulation t1 s)).start_time_ns =
        (now - (t2 - t1)) - s.start_time_ns := by
    show now - (s.start_time_ns + (t2 - t1)) = now - (t2 - t1) - s.start_time_ns
    omega
  exact ⟨helapsed, by rw [helapsed]⟩

theorem pause_resume_epoch_shift_witness :
    demoRunning.paused_time_ns = none ∧ (100 : Nat) ≤ 1100 ∧
    ((Emulator.resume_emulation 1100
        (Emulator.pause_emulation 100 demoRunning)).start_time_ns =
      demoRunning.start_time_ns + (1100 - 100) ∧
    (Emulator.resume_emulation 1100
        (Emulator.pause_emulation 100 demoRunning)).paused_time_ns = none ∧
    ∀ now : Nat,
      now - (Emulator.resume_emulation 1100
          (Emulator.pause_emulation 100 demoRunning)).start_time_ns =
        (now - (1100 - 100)) - demoRunning.start_time_ns ∧
      (now - (Emulator.resume_emulation 1100
          (Emulator.pause_emulation 100 demoRunning)).start_time_ns) /
          CPU_CYCLE_TIME_NS =
        ((now - (1100 - 100)) - demoRunning.start_time_ns) /
          CPU_CYCLE_TIME_NS) :=
  ⟨rfl, by decide, pause_resume_epoch_shift demoRunning 100 1100 rfl (by decide)⟩

namespace Emulator

theorem runSteps_done (sem : CoreSem κ σ) (target fuel : Nat)
    (s : Emulator σ) (h : ¬ s.emulated_cycles < target) :
    runSteps sem target fuel s = some s := by
  rw [runSteps.eq_def]
  exact if_neg h

theorem runSteps_succ (sem : CoreSem κ σ) (target fuel : Nat)
    (s : Emulator σ) (h : s.emulated_cycles < target) :
    runSteps sem target (fuel + 1) s =
      runSteps sem target fuel
        { s with
          nes := (sem.step s.nes s.pixels).1
          emulated_cycles :=
            s.emulated_cycles + (sem.step s.nes s.pixels).2.1
          emulated_instructions := s.emulated_instructions + 1
          pixels := (sem.step s.nes s.pixels).2.2 } := by
  conv_lhs => rw [runSteps.eq_def]
  dsimp only
  rw [if_pos h]

/-- Loop correctness for `runSteps`: with step costs in `[1, Cb]` and fuel
at least the remaining cycle debt, the loop terminates with a cycle count
that is at least the old count, at least the target, and either untouched
or strictly below `target + Cb`; pacing-unrelated fields are preserved. -/
theorem runSteps_spec (sem : CoreSem κ σ) (Cb target : Nat)
    (h1 : ∀ x px, 1 ≤ (sem.step x px).2.1)
    (hC : ∀ x px, (sem.step x px).2.1 ≤ Cb) :
    ∀ (fuel : Nat) (s : Emulator σ), target ≤ s.emulated_cycles + fuel →
    ∃ s', runSteps sem target fuel s = some s' ∧
      s.emulated_cycles ≤ s'.emulated_cycles ∧
      target ≤ s'.emulated_cycles ∧
      (s'.emulated_cycles = s.emulated_cycles ∨
        s'.emulated_cycles < target + Cb) ∧
      s'.start_time_ns = s.start_time_ns ∧
      s'.paused_time_ns = s.paused_time_ns ∧
      s'.rom_path = s.rom_path := by
  intro fuel
  induction fuel with
  | zero =>
    intro s hfuel
    have hnot : ¬ s.emulated_cycles < target := by omega
    exact ⟨s, runSteps_done sem target 0 s hnot, le_refl _, by omega,
      Or.inl rfl, rfl, rfl, rfl⟩
  | succ f ih =>
    intro s hfuel
    by_cases hlt : s.emulated_cycles < target
    · have hstep1 := h1 s.nes s.pixels
      have hstepC := hC s.nes s.pixels
      obtain ⟨s', hrun, hmono, htgt, hover, hstart, hpaused, hrom⟩ :=
        ih { s with
              nes := (sem.step s.nes s.pixels).1
              emulated_cycles :=
                s.emulated_cycles + (sem.step s.nes s.pixels).2.1
              emulated_instructions := s.emulated_instructions + 1
              pixels := (sem.step s.nes s.pixels).2.2 }
          (by dsimp only; omega)
      dsimp only at hmono hover hstart hpaused hrom
      refine ⟨s', ?_, by omega, htgt, ?_, hstart, hpaused, hrom⟩
      · rw [runSteps_succ sem target f s hlt]
        exact hrun
      · rcases hover with h | h
        · right; omega
        · right; exact h
    · exact ⟨s, runSteps_done sem target (f + 1) s hlt, le_refl _, by omega,
        Or.inl rfl, rfl, rfl, rfl⟩

/-- Single-call pacing sanity for `tick` in the `Running` state. -/
theorem tick_spec (sem : CoreSem κ σ) (Cb fuel now : Nat) (s : Emulator σ)
    (h1 : ∀ x px, 1 ≤ (sem.step x px).2.1)
    (hC : ∀ x px, (sem.step x px).2.1 ≤ Cb)
    (hrun : s.paused_time_ns = none)
    (hfuel : (now - s.start_time_ns) / CPU_CYCLE_TIME_NS ≤ fuel)
    (hinv : s.emulated_cycles <
      (now - s.start_time_ns) / CPU_CYCLE_TIME_NS + Cb) :
    ∃ s', tick sem fuel now s = some s' ∧
      s.emulated_cycles ≤ s'.emulated_cycles ∧
      (now - s.start_time_ns) / CPU_CYCLE_TIME_NS ≤ s'.emulated_cycles ∧
      s'.emulated_cycles <
        (now - s.start_time_ns) / CPU_CYCLE_TIME_NS + Cb ∧
      s'.start_time_ns = s.start_time_ns ∧
      s'.paused_time_ns = none ∧
      s'.rom_path = s.rom_path := by
  obtain ⟨s', hrun', hmono, htgt, hover, hstart, hpaused, hrom⟩ :=
    runSteps_spec sem Cb ((now - s.start_time_ns) / CPU_CYCLE_TIME_NS)
      h1 hC fuel s (by omega)
  refine ⟨s', ?_, hmono, htgt, ?_, hstart, by rw [hpaused, hrun], hrom⟩
  · unfold tick
    rw [hrun]
    exact hrun'
  · rcases hover with h | h
    · omega
    · exact h

/-- Invariant-carrying correctness of a whole `tick` sequence at strictly
increasing clock readings. -/
theorem tickSeq_spec (sem : CoreSem κ σ) (Cb fuel : Nat)
    (h1 : ∀ x px, 1 ≤ (sem.step x px).2.1)
    (hC : ∀ x px, (sem.step x px).2.1 ≤ Cb) :
    ∀ (times : List Nat) (s : Emulator σ),
      s.paused_time_ns = none →
      times.Pairwise (· < ·) →
      (∀ t ∈ times, (t - s.start_time_ns) / CPU_CYCLE_TIME_NS ≤ fuel) →
      (∀ t ∈ times, s.emulated_cycles <
        (t - s.start_time_ns) / CPU_CYCLE_TIME_NS + Cb) →
      ∃ s', tickSeq sem fuel times s = some s' ∧
        s.emulated_cycles ≤ s'.emulated_cycles ∧
        s'.start_time_ns = s.start_time_ns ∧
        s'.paused_time_ns = none ∧
        s'.rom_path = s.rom_path ∧
        ∀ t', times.getLast? = some t' →
          (t' - s.start_time_ns) / CPU_CYCLE_TIME_NS ≤
            s'.emulated_cycles ∧
          s'.emulated_cycles <
            (t' - s.start_time_ns) / CPU_CYCLE_TIME_NS + Cb := by
  intro times
  induction times with
  | nil =>
    intro s hrun _ _ _
    exact ⟨s, rfl, le_refl _, rfl, hrun, rfl, fun t' h => by simp at h⟩
  | cons t ts ih =>
    intro s hrun hsorted hfuel hinv
    obtain ⟨hhead, hts⟩ := List.pairwise_cons.mp hsorted
    obtain ⟨s1, htick, hmono1, htgt1, hover1, hstart1, hpaused1, hrom1⟩ :=
      tick_spec sem Cb fuel t s h1 hC hrun
        (hfuel t (List.mem_cons_self t ts)) (hinv t (List.mem_cons_self t ts))
    obtain ⟨s2, hseq, hmono2, hstart2, hpaused2, hrom2, hlast2⟩ :=
      ih s1 hpaused1 hts
        (fun t' ht' => by rw [hstart1]; exact hfuel t' (List.mem_cons_of_mem t ht'))
        (fun t' ht' => by
          rw [hstart1]
          have hlt : t < t' := hhead t' ht'
          have hdiv : (t - s.start_time_ns) / CPU_CYCLE_TIME_NS ≤
              (t' - s.start_time_ns) / CPU_CYCLE_TIME_NS :=
            Nat.div_le_div_right (Nat.sub_le_sub_right hlt.le _)
          omega)
    refine ⟨s2, ?_, by omega, by rw [hstart2, hstart1], hpaused2,
      by rw [hrom2, hrom1], ?_⟩
    · rw [tickSeq, htick]
      exact hseq
    · intro t' hlast
      cases ts with
      | nil =>
        simp only [List.getLast?_singleton, Option.some.injEq] at hlast
        subst hlast
        have hs2 : s2 = s1 := by
          rw [tickSeq] at hseq
          exact (Option.some.injEq _ _).mp hseq.symm
        subst hs2
        exact ⟨htgt1, hover1⟩
      | cons t2 ts2 =>
        rw [List.getLast?_cons_cons] at hlast
        have := hlast2 t' hlast
        rw [hstart1] at this
        exact this

end Emulator

/-- C4: along any sequence of `tick` calls in the `Running` state at
strictly increasing clock readings (all at or after the epoch, with every
core step costing between 1 and `Cb` cycles and enough fuel for the while
loop), every call in the sequence terminates having stepped the core until
`emulated_cycles` is at least `(now - start_time_ns) / CPU_CYCLE_TIME_NS`
for its own reading; the counter never decreases from call to call and
after each call overshoots that call's target by less than one core step's
worth (`Cb`) of cycles. -/
theorem tick_sequence_paces (sem : CoreSem κ σ) (Cb fuel : Nat)
    (times : List Nat) (s : Emulator σ)
    (h1 : ∀ x px, 1 ≤ (sem.step x px).2.1)
    (hC : ∀ x px, (sem.step x px).2.1 ≤ Cb)
    (hrun : s.paused_time_ns = none)
    (hsorted : times.Pairwise (· < ·))
    (hstart : ∀ t ∈ times, s.start_time_ns ≤ t)
    (hfuel : ∀ t ∈ times, (t - s.start_time_ns) / CPU_CYCLE_TIME_NS ≤ fuel)
    (hinv : ∀ t ∈ times, s.emulated_cycles <
      (t - s.start_time_ns) / CPU_CYCLE_TIME_NS + Cb) :
    ∀ pre t suf, times = pre ++ t :: suf →
    ∃ s1 s2, Emulator.tickSeq sem fuel pre s = some s1 ∧
      Emulator.tick sem fuel t s1 = some s2 ∧
      s1.emulated_cycles ≤ s2.emulated_cycles ∧
      (t - s.start_time_ns) / CPU_CYCLE_TIME_NS ≤ s2.emulated_cycles ∧
      s2.emulated_cycles <
        (t - s.start_time_ns) / CPU_CYCLE_TIME_NS + Cb := by
  intro pre t suf heq
  subst heq
  obtain ⟨hp, hq, hpq⟩ := List.pairwise_append.mp hsorted
  have htmem : t ∈ pre ++ t :: suf :=
    List.mem_append.mpr (Or.inr (List.mem_cons_self t suf))
  obtain ⟨s1, hseq, hmono1, hstart1, hpaused1, hrom1, hlast1⟩ :=
    Emulator.tickSeq_spec sem Cb fuel h1 hC pre s hrun hp
      (fun t' ht' => hfuel t' (List.mem_append.mpr (Or.inl ht')))
      (fun t' ht' => hinv t' (List.mem_append.mpr (Or.inl ht')))
  have hinv1 : s1.emulated_cycles <
      (t - s1.start_time_ns) / CPU_CYCLE_TIME_NS + Cb := by
    rw [hstart1]
    cases hpre : pre.getLast? with
    | none =>
      have hpre' : pre = [] := List.getLast?_eq_none_iff.mp hpre
      subst hpre'
      have hs1 : s1 = s := by
        rw [Emulator.tickSeq] at hseq
        exact (Option.some.injEq _ _).mp hseq.symm
      subst hs1
      exact hinv t htmem
    | some t' =>
      have ht'mem : t' ∈ pre := by
        obtain ⟨hne, heq⟩ := List.mem_getLast?_eq_getLast (Option.mem_def.mpr hpre)
        exact heq ▸ List.getLast_mem hne
      have hlt : t' < t :=
        hpq t' ht'mem t (List.mem_cons_self t suf)
      have hdiv : (t' - s.start_time_ns) / CPU_CYCLE_TIME_NS ≤
          (t - s.start_time_ns) / CPU_CYCLE_TIME_NS :=
        Nat.div_le_div_right (Nat.sub_le_sub_right hlt.le _)
      have := hlast1 t' hpre
      omega
  obtain ⟨s2, htick, hmono2, htgt2, hover2, _, _, _⟩ :=
    Emulator.tick_spec sem Cb fuel t s1 h1 hC hpaused1
      (by rw [hstart1]; exact hfuel t htmem) hinv1
  rw [hstart1] at htgt2 hover2
  exact ⟨s1, s2, hseq, htick, hmono2, htgt2, hover2⟩

theorem tick_sequence_paces_witness :
    ∃ s1 s2, Emulator.tickSeq natSem 10 [600] demoRunning = some s1 ∧
      Emulator.tick natSem 10 1200 s1 = some s2 ∧
      s1.emulated_cycles ≤ s2.emulated_cycles ∧
      (1200 - demoRunning.start_time_ns) / CPU_CYCLE_TIME_NS ≤
        s2.emulated_cycles ∧
      s2.emulated_cycles <
        (1200 - demoRunning.start_time_ns) / CPU_CYCLE_TIME_NS + 2 :=
  tick_sequence_paces natSem 2 10 [600, 1200] demoRunning
    (fun x px => by show (1 : Nat) ≤ 2; decide)
    (fun x px => by show (2 : Nat) ≤ 2; decide)
    rfl
    (by decide)
    (fun t ht => by
      rcases List.mem_cons.mp ht with rfl | ht
      · decide
      · rcases List.mem_cons.mp ht with rfl | ht
        · decide
        · cases ht)
    (fun t ht => by
      rcases List.mem_cons.mp ht with rfl | ht
      · decide
      · rcases List.mem_cons.mp ht with rfl | ht
        · decide
        · cases ht)
    (fun t ht => by
      rcases List.mem_cons.mp ht with rfl | ht
      · decide
      · rcases List.mem_cons.mp ht with rfl | ht
        · decide
        · cases ht)
    [600] 1200 [] rfl

/-- C8: `load_rom` is equivalent to replacing the machine core with one
freshly constructed from the new image and then performing `reset` (the
spec-order `load_rom_spec`), provided reset restores a fresh core to its
own power-on state (`sem.reset (sem.new c) = sem.new c`, the core's §6
boundary contract); afterwards the core is the new power-on instance, both
counters are zero and the epoch is the reading taken during the call. -/
theorem load_rom_refines_spec (sem : CoreSem κ σ) (rom : κ)
    (rom_path : String) (now : Nat) (s : Emulator σ)
    (hpow : ∀ c, sem.reset (sem.new c) = sem.new c) :
    Emulator.load_rom sem rom rom_path now s =
      Emulator.load_rom_spec sem rom rom_path now s ∧
    (Emulator.load_rom sem rom rom_path now s).nes = sem.new rom ∧
    (Emulator.load_rom sem rom rom_path now s).emulated_cycles = 0 ∧
    (Emulator.load_rom sem rom rom_path now s).emulated_instructions = 0 ∧
    (Emulator.load_rom sem rom rom_path now s).start_time_ns = now := by
  refine ⟨?_, rfl, rfl, rfl, rfl⟩
  unfold Emulator.load_rom Emulator.load_rom_spec Emulator.reset
  simp [hpow rom]

theorem load_rom_refines_spec_witness :
    (∀ c : Nat, natSem.reset (natSem.new c) = natSem.new c) ∧
    (Emulator.load_rom natSem 3 "new.nes" 42 demoPaused =
      Emulator.load_rom_spec natSem 3 "new.nes" 42 demoPaused ∧
    (Emulator.load_rom natSem 3 "new.nes" 42 demoPaused).nes =
      natSem.new 3 ∧
    (Emulator.load_rom natSem 3 "new.nes" 42 demoPaused).emulated_cycles
      = 0 ∧
    (Emulator.load_rom natSem 3 "new.nes" 42
        demoPaused).emulated_instructions = 0 ∧
    (Emulator.load_rom natSem 3 "new.nes" 42 demoPaused).start_time_ns
      = 42) :=
  ⟨fun c => rfl,
    load_rom_refines_spec natSem 3 "new.nes" 42 demoPaused fun c => rfl⟩

theorem setChecked_lt (l : List Nat) (i v : Nat) (h : i < l.length) :
    setChecked l i v = some (l.set i v) := by
  unfold setChecked
  exact if_pos h

theorem getD_set_self (l : List Nat) (i v : Nat) (h : i < l.length) :
    (l.set i v).getD i 0 = v := by
  rw [List.getD_eq_getElem?_getD, List.getElem?_set_self h]
  rfl

theorem getD_set_other (l : List Nat) (i j v : Nat) (h : i ≠ j) :
    (l.set i v).getD j 0 = l.getD j 0 := by
  rw [List.getD_eq_getElem?_getD, List.getElem?_set_ne h,
    ← List.getD_eq_getElem?_getD]

/-- The four destination-buffer writes `write_frame` performs for one pixel
position, as one list operation. -/
def quadSet (px : List Nat) (i v0 v1 v2 v3 : Nat) : List Nat :=
  (((px.set (i * 4) v0).set (i * 4 + 1) v1).set
      (i * 4 + 2) v2).set (i * 4 + 3) v3

theorem quadSet_length (px : List Nat) (i v0 v1 v2 v3 : Nat) :
    (quadSet px i v0 v1 v2 v3).length = px.length := by
  simp only [quadSet, List.length_set]

theorem quadSet_getD_of_ne (px : List Nat) (i v0 v1 v2 v3 j : Nat)
    (h0 : j ≠ i * 4) (h1 : j ≠ i * 4 + 1) (h2 : j ≠ i * 4 + 2)
    (h3 : j ≠ i * 4 + 3) :
    (quadSet px i v0 v1 v2 v3).getD j 0 = px.getD j 0 := by
  unfold quadSet
  rw [getD_set_other _ _ _ _ (Ne.symm h3), getD_set_other _ _ _ _ (Ne.symm h2),
    getD_set_other _ _ _ _ (Ne.symm h1), getD_set_other _ _ _ _ (Ne.symm h0)]

theorem quadSet_getD_0 (px : List Nat) (i v0 v1 v2 v3 : Nat)
    (h : i * 4 < px.length) :
    (quadSet px i v0 v1 v2 v3).getD (i * 4) 0 = v0 := by
  unfold quadSet
  rw [getD_set_other _ _ _ _ (by omega), getD_set_other _ _ _ _ (by omega),
    getD_set_other _ _ _ _ (by omega)]
  exact getD_set_self _ _ _ h

theorem quadSet_getD_1 (px : List Nat) (i v0 v1 v2 v3 : Nat)
    (h : i * 4 + 1 < px.length) :
    (quadSet px i v0 v1 v2 v3).getD (i * 4 + 1) 0 = v1 := by
  unfold quadSet
  rw [getD_set_other _ _ _ _ (by omega), getD_set_other _ _ _ _ (by omega)]
  exact getD_set_self _ _ _ (by rw [List.length_set]; exact h)

theorem quadSet_getD_2 (px : List Nat) (i v0 v1 v2 v3 : Nat)
    (h : i * 4 + 2 < px.length) :
    (quadSet px i v0 v1 v2 v3).getD (i * 4 + 2) 0 = v2 := by
  unfold quadSet
  rw [getD_set_other _ _ _ _ (by omega)]
  exact getD_set_self _ _ _
    (by rw [List.length_set, List.length_set]; exact h)

theorem quadSet_getD_3 (px : List Nat) (i v0 v1 v2 v3 : Nat)
    (h : i * 4 + 3 < px.length) :
    (quadSet px i v0 v1 v2 v3).getD (i * 4 + 3) 0 = v3 := by
  unfold quadSet
  exact getD_set_self _ _ _
    (by rw [List.length_set, List.length_set, List.length_set]; exact h)

theorem writePixels_cons (palette : Nat → Nat) (px : List Nat) (idx : Nat)
    (rest : List Nat) (i : Nat) (h : i * 4 + 3 < px.length) :
    writePixels palette px (idx :: rest) i =
      writePixels palette
        (quadSet px i (palette idx / 2 ^ 16 % 2 ^ 8)
          (palette idx / 2 ^ 8 % 2 ^ 8) (palette idx % 2 ^ 8) 119)
        rest (i + 1) := by
  have e1 : setChecked px (i * 4) (palette idx / 2 ^ 16 % 2 ^ 8) =
      some (px.set (i * 4) (palette idx / 2 ^ 16 % 2 ^ 8)) :=
    setChecked_lt _ _ _ (by omega)
  have e2 : setChecked (px.set (i * 4) (palette idx / 2 ^ 16 % 2 ^ 8))
      (i * 4 + 1) (palette idx / 2 ^ 8 % 2 ^ 8) =
      some ((px.set (i * 4) (palette idx / 2 ^ 16 % 2 ^ 8)).set
        (i * 4 + 1) (palette idx / 2 ^ 8 % 2 ^ 8)) :=
    setChecked_lt _ _ _ (by rw [List.length_set]; omega)
  have e3 : setChecked ((px.set (i * 4) (palette idx / 2 ^ 16 % 2 ^ 8)).set
      (i * 4 + 1) (palette idx / 2 ^ 8 % 2 ^ 8)) (i * 4 + 2)
      (palette idx % 2 ^ 8) =
      some (((px.set (i * 4) (palette idx / 2 ^ 16 % 2 ^ 8)).set
        (i * 4 + 1) (palette idx / 2 ^ 8 % 2 ^ 8)).set (i * 4 + 2)
        (palette idx % 2 ^ 8)) :=
    setChecked_lt _ _ _ (by rw [List.length_set, List.length_set]; omega)
  have e4 : setChecked (((px.set (i * 4) (palette idx / 2 ^ 16 % 2 ^ 8)).set
      (i * 4 + 1) (palette idx / 2 ^ 8 % 2 ^ 8)).set (i * 4 + 2)
      (palette idx % 2 ^ 8)) (i * 4 + 3) 119 =
      some ((((px.set (i * 4) (palette idx / 2 ^ 16 % 2 ^ 8)).set
        (i * 4 + 1) (palette idx / 2 ^ 8 % 2 ^ 8)).set (i * 4 + 2)
        (palette idx % 2 ^ 8)).set (i * 4 + 3) 119) :=
    setChecked_lt _ _ _
      (by rw [List.length_set, List.length_set, List.length_set]; omega)
  rw [writePixels]
  simp only [e1, e2, e3, e4, Option.bind_eq_bind', Option.some_bind']
  rfl

/-- What the `write_frame` loop body does from position `i` on: every write
is in bounds, the length is preserved, bytes outside the written window are
untouched, and the window holds the three colour bytes and the alpha byte
for each frame-buffer entry. -/
theorem writePixels_spec (palette : Nat → Nat) :
    ∀ (fb px : List Nat) (i : Nat),
      i * 4 + fb.length * 4 ≤ px.length →
      ∃ out, writePixels palette px fb i = some out ∧
        out.length = px.length ∧
        (∀ j, (j < i * 4 ∨ i * 4 + fb.length * 4 ≤ j) →
          out.getD j 0 = px.getD j 0) ∧
        ∀ k, k < fb.length →
          out.getD ((i + k) * 4) 0 =
            palette (fb.getD k 0) / 2 ^ 16 % 2 ^ 8 ∧
          out.getD ((i + k) * 4 + 1) 0 =
            palette (fb.getD k 0) / 2 ^ 8 % 2 ^ 8 ∧
          out.getD ((i + k) * 4 + 2) 0 = palette (fb.getD k 0) % 2 ^ 8 ∧
          out.getD ((i + k) * 4 + 3) 0 = 119 := by
  intro fb
  induction fb with
  | nil =>
    intro px i _
    exact ⟨px, rfl, rfl, fun j _ => rfl,
      fun k hk => absurd hk (Nat.not_lt_zero k)⟩
  | cons idx rest ih =>
    intro px i hlen
    simp only [List.length_cons] at hlen ⊢
    have hb : i * 4 + 3 < px.length := by omega
    obtain ⟨out, hrun, hlen', hpres, hvals⟩ :=
      ih (quadSet px i (palette idx / 2 ^ 16 % 2 ^ 8)
          (palette idx / 2 ^ 8 % 2 ^ 8) (palette idx % 2 ^ 8) 119)
        (i + 1) (by rw [quadSet_length]; omega)
    refine ⟨out, ?_, ?_, ?_, ?_⟩
    · rw [writePixels_cons palette px idx rest i hb]
      exact hrun
    · rw [hlen', quadSet_length]
    · intro j hj
      have hj' : j < (i + 1) * 4 ∨ (i + 1) * 4 + rest.length * 4 ≤ j := by
        omega
      rw [hpres j hj']
      exact quadSet_getD_of_ne px i _ _ _ _ j (by omega) (by omega)
        (by omega) (by omega)
    · intro k hk
      cases k with
      | zero =>
        simp only [Nat.add_zero, List.getD_cons_zero]
        refine ⟨?_, ?_, ?_, ?_⟩
        · rw [hpres (i * 4) (Or.inl (by omega))]
          exact quadSet_getD_0 px i _ _ _ _ (by omega)
        · rw [hpres (i * 4 + 1) (Or.inl (by omega))]
          exact quadSet_getD_1 px i _ _ _ _ (by omega)
        · rw [hpres (i * 4 + 2) (Or.inl (by omega))]
          exact quadSet_getD_2 px i _ _ _ _ (by omega)
        · rw [hpres (i * 4 + 3) (Or.inl (by omega))]
          exact quadSet_getD_3 px i _ _ _ _ (by omega)
      | succ k' =>
        simp only [Nat.succ_eq_add_one, List.getD_cons_succ]
        rw [show i + (k' + 1) = (i + 1) + k' from by omega]
        exact hvals k' (by omega)

/-- C7: given a palette-index sequence of length `W*H` and the destination
buffer of length `W*H*4` the emulator allocates, `write_frame` succeeds and
fully overwrites the destination: its length stays `W*H*4` and for every
pixel position `k`, bytes `4k`, `4k+1`, `4k+2` are the red, green and blue
components (bits 16–23, 8–15, 0–7) of the palette entry for the index at
position `k`, and byte `4k+3` is the fixed alpha constant `0x77 = 119`. -/
theorem write_frame_overwrites (palette : Nat → Nat)
    (pixels frame_buffer : List Nat)
    (hfb : frame_buffer.length = SCREEN_WIDTH * SCREEN_HEIGHT)
    (hpx : pixels.length = SCREEN_WIDTH * SCREEN_HEIGHT * 4) :
    ∃ out, write_frame palette pixels frame_buffer = some out ∧
      out.length = SCREEN_WIDTH * SCREEN_HEIGHT * 4 ∧
      ∀ k, k < SCREEN_WIDTH * SCREEN_HEIGHT →
        out.getD (k * 4) 0 =
          palette (frame_buffer.getD k 0) / 2 ^ 16 % 2 ^ 8 ∧
        out.getD (k * 4 + 1) 0 =
          palette (frame_buffer.getD k 0) / 2 ^ 8 % 2 ^ 8 ∧
        out.getD (k * 4 + 2) 0 = palette (frame_buffer.getD k 0) % 2 ^ 8 ∧
        out.getD (k * 4 + 3) 0 = 119 := by
  obtain ⟨out, hrun, hlen, _, hvals⟩ :=
    writePixels_spec palette frame_buffer pixels 0 (by omega)
  refine ⟨out, hrun, by omega, fun k hk => ?_⟩
  have := hvals k (by omega)
  simpa using this

theorem write_frame_overwrites_witness :
    (List.replicate (SCREEN_WIDTH * SCREEN_HEIGHT) 0).length =
      SCREEN_WIDTH * SCREEN_HEIGHT ∧
    (List.replicate (SCREEN_WIDTH * SCREEN_HEIGHT * 4) 0).length =
      SCREEN_WIDTH * SCREEN_HEIGHT * 4 ∧
    ∃ out, write_frame (fun n => n)
        (List.replicate (SCREEN_WIDTH * SCREEN_HEIGHT * 4) 0)
        (List.replicate (SCREEN_WIDTH * SCREEN_HEIGHT) 0) = some out ∧
      out.length = SCREEN_WIDTH * SCREEN_HEIGHT * 4 ∧
      ∀ k, k < SCREEN_WIDTH * SCREEN_HEIGHT →
        out.getD (k * 4) 0 =
          (fun n => n) ((List.replicate (SCREEN_WIDTH * SCREEN_HEIGHT) 0
            : List Nat).getD k 0) / 2 ^ 16 % 2 ^ 8 ∧
        out.getD (k * 4 + 1) 0 =
          (fun n => n) ((List.replicate (SCREEN_WIDTH * SCREEN_HEIGHT) 0
            : List Nat).getD k 0) / 2 ^ 8 % 2 ^ 8 ∧
        out.getD (k * 4 + 2) 0 =
          (fun n => n) ((List.replicate (SCREEN_WIDTH * SCREEN_HEIGHT) 0
            : List Nat).getD k 0) % 2 ^ 8 ∧
        out.getD (k * 4 + 3) 0 = 119 :=
  ⟨List.length_replicate _ _, List.length_replicate _ _,
    write_frame_overwrites (fun n => n)
      (List.replicate (SCREEN_WIDTH * SCREEN_HEIGHT * 4) 0)
      (List.replicate (SCREEN_WIDTH * SCREEN_HEIGHT) 0)
      (List.length_replicate _ _) (List.length_replicate _ _)⟩

/-- C10: whenever the input frame buffer has at most `W*H` entries and the
destination buffer has the `W*H*4` bytes `Emulator::new` allocates, every
destination index `write_frame` writes is in bounds, so `write_frame` is
total (`some`, never the `none` that models an out-of-bounds panic). -/
theorem write_frame_total (palette : Nat → Nat)
    (pixels frame_buffer : List Nat)
    (hfb : frame_buffer.length ≤ SCREEN_WIDTH * SCREEN_HEIGHT)
    (hpx : pixels.length = SCREEN_WIDTH * SCREEN_HEIGHT * 4) :
    ∃ out, write_frame palette pixels frame_buffer = some out := by
  obtain ⟨out, hrun, _, _, _⟩ :=
    writePixels_spec palette frame_buffer pixels 0 (by omega)
  exact ⟨out, hrun⟩

theorem write_frame_total_witness :
    ([5, 0, 63] : List Nat).length ≤ SCREEN_WIDTH * SCREEN_HEIGHT ∧
    (List.replicate (SCREEN_WIDTH * SCREEN_HEIGHT * 4) 0).length =
      SCREEN_WIDTH * SCREEN_HEIGHT * 4 ∧
    ∃ out, write_frame (fun n => n)
        (List.replicate (SCREEN_WIDTH * SCREEN_HEIGHT * 4) 0)
        [5, 0, 63] = some out :=
  ⟨by decide, List.length_replicate _ _,
    write_frame_total (fun n => n)
      (List.replicate (SCREEN_WIDTH * SCREEN_HEIGHT * 4) 0) [5, 0, 63]
      (by decide) (List.length_replicate _ _)⟩
